import Mathlib

/-!
Verification of the spatial-neighborhood core of `deforestprob/cellneigh.py`.

The module builds, for a regular grid laid over a geographic region, the
per-cell neighbor counts and the flattened adjacency list, either over the
full grid (`cellneigh`) or restricted to the cells of a binary country mask
(`cellneigh_ctry`).  The Python source is shallowly embedded below:

* floats (region coordinates, cell size) become `ℚ`;
* `numpy` integer arrays become `List ℤ`;
* fallible steps (`sys.exit`, `ZeroDivisionError`, `IndexError`,
  `AttributeError`) become `Except String`;
* rasterization (gdal) is an external collaborator: the binary mask it
  produces is taken as an input (`List (List ℕ)`, row-major).
-/

namespace Cellneigh

/-- Raster georeferencing metadata, as read by `gdal.Open` in the source:
`gt0, gt1, gt3, gt5` are the used entries of the geotransform, and
`ncol_r`, `nrow_r` the raster dimensions (`RasterXSize`, `RasterYSize`). -/
structure RasterMeta where
  gt0 : ℚ
  gt1 : ℚ
  gt3 : ℚ
  gt5 : ℚ
  ncol_r : ℕ
  nrow_r : ℕ

/-- Region bounds derived from raster metadata (source lines 32-39):
`Xmin = gt0`, `Xmax = gt0 + gt1*ncol_r`, `Ymin = gt3 + gt5*nrow_r`,
`Ymax = gt3`.  Returned as `(Xmin, Xmax, Ymin, Ymax)`. -/
def rasterRegion (r : RasterMeta) : ℚ × ℚ × ℚ × ℚ :=
  (r.gt0, r.gt0 + r.gt1 * r.ncol_r, r.gt3 + r.gt5 * r.nrow_r, r.gt3)

/-- Region resolution (source lines 31-47 and 97-113, identical in both
builders): the raster takes precedence, then the explicit region tuple;
with neither, the program prints a message and calls `sys.exit(1)`. -/
def resolveRegion (raster : Option RasterMeta)
    (region : Option (ℚ × ℚ × ℚ × ℚ)) : Except String (ℚ × ℚ × ℚ × ℚ) :=
  match raster with
  | some r => .ok (rasterRegion r)
  | none =>
    match region with
    | some reg => .ok reg
    | none => .error "exit 1: raster or region must be specified"

/-- `np.arange(-rank, rank + 1)` (source line 62): the integers
`-rank, ..., rank` in order. -/
def around (rank : ℕ) : List ℤ :=
  (List.range (2 * rank + 1)).map (fun t : ℕ => (t : ℤ) - (rank : ℤ))

/-- `Iprim = I[(I >= 0) & (I < nrow)]` where `I = i + around`
(source lines 65-66): the candidate rows for cell row `i`, clipped. -/
def iprim (nrow : ℕ) (i : ℕ) (rank : ℕ) : List ℤ :=
  ((around rank).map (fun d => (i : ℤ) + d)).filter
    (fun v => decide (0 ≤ v ∧ v < (nrow : ℤ)))

/-- `Jprim = J[(J >= 0) & (J < ncol)]` where `J = j + around`
(source lines 67-68): the candidate columns for cell column `j`, clipped. -/
def jprim (ncol : ℕ) (j : ℕ) (rank : ℕ) : List ℤ :=
  ((around rank).map (fun d => (j : ℤ) + d)).filter
    (fun v => decide (0 ≤ v ∧ v < (ncol : ℤ)))

/-- The adjacency entries appended for cell `(i, j)` by the unconstrained
builder (source lines 71-74): every `(cy, cx)` in `Iprim × Jprim` except the
center, in row-then-column order, encoded as `cy * ncol + cx`. -/
def cellAdj (ncol nrow rank : ℕ) (i j : ℕ) : List ℤ :=
  (iprim nrow i rank).flatMap (fun cy =>
    ((jprim ncol j rank).filter
        (fun cx => decide (¬(cy = (i : ℤ) ∧ cx = (j : ℤ))))).map
      (fun cx => cy * (ncol : ℤ) + cx))

/-- The neighbor count appended for cell `(i, j)` (source line 70):
`len(Iprim) * len(Jprim) - 1`. -/
def cellCount (ncol nrow rank : ℕ) (i j : ℕ) : ℤ :=
  ((iprim nrow i rank).length : ℤ) * ((jprim ncol j rank).length : ℤ) - 1

/-- The row-major cell iteration order of both builders (source lines 63-64
and 143-144): `(i, j)` for `i` in `range(nrow)`, `j` in `range(ncol)`. -/
def cells (nrow ncol : ℕ) : List (ℕ × ℕ) :=
  (List.range nrow).flatMap (fun i => (List.range ncol).map (fun j => (i, j)))

/-- The neighbor-count array and flat adjacency list of the unconstrained
builder (source lines 60-76), for given grid dimensions. -/
def cellneighGrid (ncol nrow rank : ℕ) : List ℤ × List ℤ :=
  ((cells nrow ncol).map (fun p => cellCount ncol nrow rank p.1 p.2),
   (cells nrow ncol).flatMap (fun p => cellAdj ncol nrow rank p.1 p.2))

/-- `cellneigh` (source lines 18-78): resolve the region, convert the cell
size to meters, derive grid dimensions by ceiling division (a zero cell size
raises `ZeroDivisionError`; a negative grid dimension makes the Python
`range` empty, modelled by `Int.toNat`), then build the neighbor structure. -/
def cellneigh (raster : Option RasterMeta) (region : Option (ℚ × ℚ × ℚ × ℚ))
    (csize : ℚ) (rank : ℕ) : Except String (List ℤ × List ℤ) :=
  match resolveRegion raster region with
  | .error e => .error e
  | .ok (Xmin, Xmax, Ymin, Ymax) =>
    let csm := csize * 1000
    if csm = 0 then .error "ZeroDivisionError"
    else
      let ncol := (⌈(Xmax - Xmin) / csm⌉).toNat
      let nrow := (⌈(Ymax - Ymin) / csm⌉).toNat
      .ok (cellneighGrid ncol nrow rank)

/-- Read `mask[r, c]` on a numpy 2-d array of shape `(len mask, ...)`:
out-of-bounds indices raise `IndexError`, modelled as `none`.  (Negative
indices never occur at any call site: all candidates are pre-filtered to be
nonnegative, and `range` indices are nonnegative.) -/
def maskGet (mask : List (List ℕ)) (r c : ℤ) : Option ℕ :=
  if 0 ≤ r ∧ 0 ≤ c then (mask[r.toNat]?).bind (fun row => row[c.toNat]?)
  else none

/-- One candidate `(cy, cx)` of the masked builder's inner loop (source
line 154): `if (not (cy == i and cx == j)) and (mask[cx, cy] == 1)`.
Python's `and` short-circuits, so the center cell never touches the mask;
any other candidate reads the mask with the TRANSPOSED index pair
`mask[cx, cy]` exactly as the source does, which raises `IndexError` when
`cx >= len(mask)` or `cy` exceeds the row length.  A retained candidate
contributes `cy * ncol + cx` (source line 155). -/
def candStep (mask : List (List ℕ)) (ncol : ℕ) (i j : ℕ) (cy cx : ℤ) :
    Except String (List ℤ) :=
  if cy = (i : ℤ) ∧ cx = (j : ℤ) then .ok []
  else
    match maskGet mask cx cy with
    | none => .error "IndexError"
    | some v => .ok (if v = 1 then [cy * (ncol : ℤ) + cx] else [])

/-- The candidate pairs of the masked builder's double loop for cell
`(i, j)` (source lines 152-153): `(cy, cx)` for `cy` in `Iprim`, `cx` in
`Jprim`, in iteration order. -/
def candPairs (ncol nrow rank : ℕ) (i j : ℕ) : List (ℤ × ℤ) :=
  (iprim nrow i rank).flatMap (fun cy =>
    (jprim ncol j rank).map (fun cx => (cy, cx)))

/-- Run `candStep` over a candidate list in order, concatenating the
retained entries; the first `IndexError` aborts, as in Python. -/
def appendRetained (mask : List (List ℕ)) (ncol : ℕ) (i j : ℕ) :
    List (ℤ × ℤ) → Except String (List ℤ)
  | [] => .ok []
  | (cy, cx) :: rest =>
    match candStep mask ncol i j cy cx with
    | .error e => .error e
    | .ok l =>
      match appendRetained mask ncol i j rest with
      | .error e => .error e
      | .ok ls => .ok (l ++ ls)

/-- The adjacency entries (global linear ids, before translation) appended
for an included cell `(i, j)` by the masked builder (source lines 150-156). -/
def ctryCellScan (mask : List (List ℕ)) (ncol nrow rank : ℕ) (i j : ℕ) :
    Except String (List ℤ) :=
  appendRetained mask ncol i j (candPairs ncol nrow rank i j)

/-- The masked builder's main loop (source lines 140-157) over a given cell
list: a cell enters the scan only when `mask[i, j] == 1` (source line 145,
row-major access); its retained entries are appended to `adj` and their
number to `nneigh` (`nneighbors` is incremented exactly when an entry is
appended, so the count is the length of the cell's retained list). -/
def ctryScanAux (mask : List (List ℕ)) (ncol nrow rank : ℕ) :
    List (ℕ × ℕ) → Except String (List ℤ × List ℤ)
  | [] => .ok ([], [])
  | (i, j) :: rest =>
    match maskGet mask i j with
    | none => .error "IndexError"
    | some v =>
      if v = 1 then
        match ctryCellScan mask ncol nrow rank i j with
        | .error e => .error e
        | .ok lst =>
          match ctryScanAux mask ncol nrow rank rest with
          | .error e => .error e
          | .ok (ns, ad) => .ok ((lst.length : ℤ) :: ns, lst ++ ad)
      else ctryScanAux mask ncol nrow rank rest

/-- The masked builder's main loop over all cells in row-major order. -/
def ctryScan (mask : List (List ℕ)) (ncol nrow rank : ℕ) :
    Except String (List ℤ × List ℤ) :=
  ctryScanAux mask ncol nrow rank (cells nrow ncol)

/-- `cell_in = y_in * ncol + x_in` where `y_in, x_in = np.where(mask == 1)`
(source lines 135-136): the global linear ids of the 1-valued mask entries,
in row-major scan order. -/
def cell_in (mask : List (List ℕ)) (ncol : ℕ) : List ℤ :=
  mask.enum.flatMap (fun p =>
    ((p.2.enum.filter (fun q => q.2 == 1)).map
      (fun q => (p.1 : ℤ) * (ncol : ℤ) + (q.1 : ℤ))))

/-- `adj_rank = [cell_in.index(i) for i in adj]` (source line 160).
`cell_in` is a numpy `ndarray` (built by array arithmetic from `np.where`),
and `ndarray` has no `.index` method: the first iteration of the
comprehension raises `AttributeError`.  An empty `adj` never evaluates the
attribute access and yields `[]`. -/
def adjRank (_ci : List ℤ) (adj : List ℤ) : Except String (List ℕ) :=
  match adj with
  | [] => .ok []
  | _ :: _ => .error "AttributeError"

/-- The masked builder for given grid dimensions and mask (source lines
135-162): compute `cell_in`, run the masked scan, translate `adj` to
compacted indices, and return `(nneigh, adj_rank, cell_in)`. -/
def ctryBuild (mask : List (List ℕ)) (ncol nrow rank : ℕ) :
    Except String (List ℤ × List ℕ × List ℤ) :=
  let ci := cell_in mask ncol
  match ctryScan mask ncol nrow rank with
  | .error e => .error e
  | .ok (ns, ad) =>
    match adjRank ci ad with
    | .error e => .error e
    | .ok ar => .ok (ns, ar, ci)

/-- `cellneigh_ctry` (source lines 82-162): region resolution and grid
sizing as in `cellneigh`; the gdal rasterization of the country vector is an
external collaborator, so the binary mask it produces is an input here. -/
def cellneigh_ctry (raster : Option RasterMeta)
    (region : Option (ℚ × ℚ × ℚ × ℚ)) (mask : List (List ℕ)) (csize : ℚ)
    (rank : ℕ) : Except String (List ℤ × List ℕ × List ℤ) :=
  match resolveRegion raster region with
  | .error e => .error e
  | .ok (Xmin, Xmax, Ymin, Ymax) =>
    let csm := csize * 1000
    if csm = 0 then .error "ZeroDivisionError"
    else
      let ncol := (⌈(Xmax - Xmin) / csm⌉).toNat
      let nrow := (⌈(Ymax - Ymin) / csm⌉).toNat
      ctryBuild mask ncol nrow rank

/-! ## Basic characterizations -/

lemma mem_around {rank : ℕ} {d : ℤ} :
    d ∈ around rank ↔ -(rank : ℤ) ≤ d ∧ d ≤ rank := by
  simp only [around, List.mem_map, List.mem_range]
  constructor
  · rintro ⟨t, ht, rfl⟩
    omega
  · intro h
    exact ⟨(d + rank).toNat, by omega, by omega⟩

lemma mem_iprim {nrow i rank : ℕ} {v : ℤ} :
    v ∈ iprim nrow i rank ↔
      0 ≤ v ∧ v < nrow ∧ -(rank : ℤ) ≤ v - i ∧ v - i ≤ rank := by
  simp only [iprim, List.mem_filter, List.mem_map, decide_eq_true_eq]
  constructor
  · rintro ⟨⟨d, hd, rfl⟩, h0, h1⟩
    have := mem_around.mp hd
    exact ⟨h0, h1, by omega, by omega⟩
  · rintro ⟨h0, h1, h2, h3⟩
    exact ⟨⟨v - i, mem_around.mpr ⟨h2, h3⟩, by ring⟩, h0, h1⟩

lemma mem_jprim {ncol j rank : ℕ} {v : ℤ} :
    v ∈ jprim ncol j rank ↔
      0 ≤ v ∧ v < ncol ∧ -(rank : ℤ) ≤ v - j ∧ v - j ≤ rank := by
  simp only [jprim, List.mem_filter, List.mem_map, decide_eq_true_eq]
  constructor
  · rintro ⟨⟨d, hd, rfl⟩, h0, h1⟩
    have := mem_around.mp hd
    exact ⟨h0, h1, by omega, by omega⟩
  · rintro ⟨h0, h1, h2, h3⟩
    exact ⟨⟨v - j, mem_around.mpr ⟨h2, h3⟩, by ring⟩, h0, h1⟩

lemma mem_cellAdj {ncol nrow rank i j : ℕ} {v : ℤ} :
    v ∈ cellAdj ncol nrow rank i j ↔
      ∃ cy cx : ℤ, cy ∈ iprim nrow i rank ∧ cx ∈ jprim ncol j rank ∧
        ¬(cy = (i : ℤ) ∧ cx = (j : ℤ)) ∧ v = cy * (ncol : ℤ) + cx := by
  simp only [cellAdj, List.mem_flatMap, List.mem_map, List.mem_filter,
    decide_eq_true_eq]
  constructor
  · rintro ⟨cy, hcy, cx, ⟨hcx, hne⟩, rfl⟩
    exact ⟨cy, cx, hcy, hcx, hne, rfl⟩
  · rintro ⟨cy, cx, hcy, hcx, hne, rfl⟩
    exact ⟨cy, hcy, cx, ⟨hcx, hne⟩, rfl⟩

/-- Row-major linear ids decode uniquely when the column part lies in
`[0, n)`. -/
lemma linearId_inj {n cy cx d e : ℤ} (hcx0 : 0 ≤ cx) (hcx : cx < n)
    (he0 : 0 ≤ e) (he : e < n) (h : cy * n + cx = d * n + e) :
    cy = d ∧ cx = e := by
  have hn : 0 < n := lt_of_le_of_lt he0 he
  have h2 : (cy - d) * n = e - cx := by linear_combination h
  have hyd : cy = d := by
    rcases lt_trichotomy cy d with hl | heq | hg
    · have h1 : cy - d ≤ -1 := by omega
      have h3 : (cy - d) * n ≤ (-1) * n :=
        mul_le_mul_of_nonneg_right h1 hn.le
      linarith
    · exact heq
    · have h1 : 1 ≤ cy - d := by omega
      have h3 : 1 * n ≤ (cy - d) * n :=
        mul_le_mul_of_nonneg_right h1 hn.le
      linarith
  subst hyd
  exact ⟨rfl, by linarith⟩

lemma around_nodup (rank : ℕ) : (around rank).Nodup :=
  (List.nodup_range _).map (fun a b h => by omega)

lemma iprim_nodup (nrow i rank : ℕ) : (iprim nrow i rank).Nodup :=
  ((around_nodup rank).map (fun a b h => by omega)).filter _

lemma jprim_nodup (ncol j rank : ℕ) : (jprim ncol j rank).Nodup :=
  ((around_nodup rank).map (fun a b h => by omega)).filter _

lemma self_mem_iprim {nrow i rank : ℕ} (h : i < nrow) :
    (i : ℤ) ∈ iprim nrow i rank :=
  mem_iprim.mpr ⟨Int.natCast_nonneg i, by exact_mod_cast h, by omega, by omega⟩

lemma self_mem_jprim {ncol j rank : ℕ} (h : j < ncol) :
    (j : ℤ) ∈ jprim ncol j rank :=
  mem_jprim.mpr ⟨Int.natCast_nonneg j, by exact_mod_cast h, by omega, by omega⟩

lemma length_filter_ne (l : List ℤ) (a : ℤ) :
    (l.filter (fun x => decide (¬(x = a)))).length + l.count a = l.length := by
  induction l with
  | nil => simp
  | cons b l ih =>
    simp only [List.filter_cons, List.count_cons, List.length_cons]
    by_cases hb : b = a
    · rw [if_neg (by simp [hb]), if_pos (by simp [hb])]
      omega
    · rw [if_pos (by simp [hb]), if_neg (by simp [hb])]
      simp only [List.length_cons]
      omega

lemma sum_map_plus_count (l : List ℤ) (f : ℤ → ℕ) (b : ℕ) (i : ℤ)
    (hf : ∀ cy ∈ l, f cy + (if cy = i then 1 else 0) = b) :
    (l.map f).sum + l.count i = l.length * b := by
  induction l with
  | nil => simp
  | cons a l ih =>
    have ha := hf a (List.mem_cons_self a l)
    have ihl := ih (fun cy hcy => hf cy (List.mem_cons_of_mem a hcy))
    have hm : (l.length + 1) * b = l.length * b + b := Nat.succ_mul _ _
    by_cases hai : a = i
    · rw [if_pos hai] at ha
      simp only [List.map_cons, List.sum_cons, List.count_cons,
        List.length_cons, if_pos (by simp [hai] : (a == i) = true)]
      omega
    · rw [if_neg hai] at ha
      simp only [List.map_cons, List.sum_cons, List.count_cons,
        List.length_cons, if_neg (by simp [hai] : ¬((a == i) = true))]
      omega

/-- For a cell of the grid, the number of appended adjacency entries equals
the appended neighbor count `len(Iprim) * len(Jprim) - 1`. -/
lemma cellAdj_length {ncol nrow rank i j : ℕ} (hi : i < nrow)
    (hj : j < ncol) :
    ((cellAdj ncol nrow rank i j).length : ℤ) = cellCount ncol nrow rank i j := by
  have hcnt : ∀ cy ∈ iprim nrow i rank,
      ((jprim ncol j rank).filter
          (fun cx => decide (¬(cy = (i : ℤ) ∧ cx = (j : ℤ))))).length +
        (if cy = (i : ℤ) then 1 else 0) = (jprim ncol j rank).length := by
    intro cy _
    by_cases hcy : cy = (i : ℤ)
    · rw [if_pos hcy]
      have hcong : (jprim ncol j rank).filter
            (fun cx => decide (¬(cy = (i : ℤ) ∧ cx = (j : ℤ)))) =
          (jprim ncol j rank).filter (fun cx => decide (¬(cx = (j : ℤ)))) :=
        List.filter_congr (fun cx _ => by simp [hcy])
      rw [hcong]
      have hone : (jprim ncol j rank).count (j : ℤ) = 1 :=
        List.count_eq_one_of_mem (jprim_nodup ncol j rank)
          (self_mem_jprim hj)
      have := length_filter_ne (jprim ncol j rank) (j : ℤ)
      omega
    · rw [if_neg hcy]
      have hall : (jprim ncol j rank).filter
            (fun cx => decide (¬(cy = (i : ℤ) ∧ cx = (j : ℤ)))) =
          jprim ncol j rank :=
        List.filter_eq_self.mpr (fun cx _ => by
          simp only [decide_eq_true_eq]
          exact fun hc => hcy hc.1)
      rw [hall]
      omega
  have hkey := sum_map_plus_count (iprim nrow i rank)
    (fun cy => ((jprim ncol j rank).filter
      (fun cx => decide (¬(cy = (i : ℤ) ∧ cx = (j : ℤ))))).length)
    (jprim ncol j rank).length (i : ℤ) hcnt
  have hionce : (iprim nrow i rank).count (i : ℤ) = 1 :=
    List.count_eq_one_of_mem (iprim_nodup nrow i rank) (self_mem_iprim hi)
  rw [hionce] at hkey
  have hlen : (cellAdj ncol nrow rank i j).length =
      ((iprim nrow i rank).map (fun cy => ((jprim ncol j rank).filter
        (fun cx => decide (¬(cy = (i : ℤ) ∧ cx = (j : ℤ))))).length)).sum := by
    rw [cellAdj, List.length_flatMap]
    congr 1
    exact List.map_congr_left (fun cy _ => by
      simp [Function.comp, List.length_map])
  rw [hlen, cellCount]
  have hcast : (((iprim nrow i rank).map (fun cy => ((jprim ncol j rank).filter
        (fun cx => decide (¬(cy = (i : ℤ) ∧ cx = (j : ℤ))))).length)).sum :ℤ) + 1 =
      ((iprim nrow i rank).length : ℤ) * ((jprim ncol j rank).length : ℤ) := by
    exact_mod_cast congrArg (Nat.cast (R := ℤ)) (by omega : ((iprim nrow i
      rank).map (fun cy => ((jprim ncol j rank).filter
        (fun cx => decide (¬(cy = (i : ℤ) ∧ cx = (j : ℤ))))).length)).sum + 1 =
      (iprim nrow i rank).length * (jprim ncol j rank).length)
  omega

lemma mem_cells {nrow ncol : ℕ} {p : ℕ × ℕ} :
    p ∈ cells nrow ncol ↔ p.1 < nrow ∧ p.2 < ncol := by
  obtain ⟨i, j⟩ := p
  simp only [cells, List.mem_flatMap, List.mem_map, List.mem_range]
  constructor
  · rintro ⟨a, ha, b, hb, heq⟩
    obtain ⟨rfl, rfl⟩ := Prod.mk.injEq .. ▸ heq
    exact ⟨ha, hb⟩
  · rintro ⟨h1, h2⟩
    exact ⟨i, h1, j, h2, rfl⟩

/-- The masked main loop preserves `sum(nneigh) = len(adj)`: each included
cell appends its retained list and its length. -/
lemma ctryScanAux_sum {mask : List (List ℕ)} {ncol nrow rank : ℕ} :
    ∀ {ps : List (ℕ × ℕ)} {ns ad : List ℤ},
      ctryScanAux mask ncol nrow rank ps = .ok (ns, ad) →
        ns.sum = (ad.length : ℤ) := by
  intro ps
  induction ps with
  | nil =>
    intro ns ad h
    cases h
    simp
  | cons p rest ih =>
    intro ns ad h
    obtain ⟨i, j⟩ := p
    unfold ctryScanAux at h
    cases hm : maskGet mask (i : ℤ) (j : ℤ) with
    | none => rw [hm] at h; cases h
    | some v =>
      rw [hm] at h
      dsimp only at h
      by_cases h1 : v = 1
      · rw [if_pos h1] at h
        cases hc : ctryCellScan mask ncol nrow rank i j with
        | error e => rw [hc] at h; cases h
        | ok lst =>
          rw [hc] at h
          cases hr : ctryScanAux mask ncol nrow rank rest with
          | error e => rw [hr] at h; cases h
          | ok pr =>
            obtain ⟨ns', ad'⟩ := pr
            rw [hr] at h
            cases h
            have := ih hr
            simp only [List.sum_cons, List.length_append]
            push_cast
            omega
      · rw [if_neg h1] at h
        exact ih h

/-- C4: for any grid dimensions and rank, the sum of the neighbor-count
array equals the length of the flat adjacency list, for the unconstrained
builder and for the masked builder's scan (whenever it completes), so the
per-cell counts partition the flat list into segments. -/
theorem c4_counts_partition (ncol nrow rank : ℕ) (mask : List (List ℕ))
    (ns ad : List ℤ) (h : ctryScan mask ncol nrow rank = .ok (ns, ad)) :
    (cellneighGrid ncol nrow rank).1.sum =
        (((cellneighGrid ncol nrow rank).2.length : ℤ)) ∧
      ns.sum = (ad.length : ℤ) := by
  refine ⟨?_, ctryScanAux_sum h⟩
  simp only [cellneighGrid]
  rw [List.length_flatMap, Nat.cast_list_sum, List.map_map]
  exact congrArg List.sum (List.map_congr_left (fun p hp => by
    have hb := mem_cells.mp hp
    exact (cellAdj_length hb.1 hb.2).symm))

/-- Witness for C4 on the 2×2 grid at rank 1 with an all-ones mask. -/
theorem c4_counts_partition_witness :
    (cellneighGrid 2 2 1).1.sum = (((cellneighGrid 2 2 1).2.length : ℤ)) ∧
      ([3, 3, 3, 3] : List ℤ).sum =
        (([1, 2, 3, 0, 2, 3, 0, 1, 3, 0, 1, 2] : List ℤ).length : ℤ) :=
  c4_counts_partition 2 2 1 [[1, 1], [1, 1]] [3, 3, 3, 3]
    [1, 2, 3, 0, 2, 3, 0, 1, 3, 0, 1, 2] (by rfl)

lemma candStep_ok_mem {mask : List (List ℕ)} {ncol i j : ℕ} {cy cx v : ℤ}
    {l : List ℤ} (h : candStep mask ncol i j cy cx = .ok l) (hv : v ∈ l) :
    ¬(cy = (i : ℤ) ∧ cx = (j : ℤ)) ∧ v = cy * (ncol : ℤ) + cx := by
  unfold candStep at h
  split at h
  · cases h
    simp at hv
  · rename_i hne
    cases hm : maskGet mask cx cy with
    | none => rw [hm] at h; cases h
    | some m =>
      rw [hm] at h
      cases h
      refine ⟨hne, ?_⟩
      by_cases h1 : m = 1
      · simp [h1] at hv
        exact hv
      · simp [h1] at hv

lemma appendRetained_ok_mem {mask : List (List ℕ)} {ncol i j : ℕ} :
    ∀ {ps : List (ℤ × ℤ)} {l : List ℤ},
      appendRetained mask ncol i j ps = .ok l → ∀ v ∈ l,
        ∃ cy cx : ℤ, (cy, cx) ∈ ps ∧
          ∃ lc, candStep mask ncol i j cy cx = .ok lc ∧ v ∈ lc := by
  intro ps
  induction ps with
  | nil =>
    intro l h v hv
    cases h
    simp at hv
  | cons p rest ih =>
    intro l h v hv
    obtain ⟨cy, cx⟩ := p
    unfold appendRetained at h
    cases hc : candStep mask ncol i j cy cx with
    | error e => rw [hc] at h; cases h
    | ok lc =>
      rw [hc] at h
      cases hr : appendRetained mask ncol i j rest with
      | error e => rw [hr] at h; cases h
      | ok ls =>
        rw [hr] at h
        cases h
        rcases List.mem_append.mp hv with hv1 | hv2
        · exact ⟨cy, cx, List.mem_cons_self _ _, lc, hc, hv1⟩
        · obtain ⟨cy', cx', hmem, lc', hc', hv'⟩ := ih hr v hv2
          exact ⟨cy', cx', List.mem_cons_of_mem _ hmem, lc', hc', hv'⟩

lemma mem_candPairs {ncol nrow rank i j : ℕ} {cy cx : ℤ} :
    (cy, cx) ∈ candPairs ncol nrow rank i j ↔
      cy ∈ iprim nrow i rank ∧ cx ∈ jprim ncol j rank := by
  simp only [candPairs, List.mem_flatMap, List.mem_map]
  constructor
  · rintro ⟨a, ha, b, hb, heq⟩
    obtain ⟨rfl, rfl⟩ := Prod.mk.injEq .. ▸ heq
    exact ⟨ha, hb⟩
  · rintro ⟨ha, hb⟩
    exact ⟨cy, ha, cx, hb, rfl⟩

lemma ctryCellScan_ok_mem {mask : List (List ℕ)} {ncol nrow rank i j : ℕ}
    {lst : List ℤ} {v : ℤ}
    (h : ctryCellScan mask ncol nrow rank i j = .ok lst) (hv : v ∈ lst) :
    ∃ cy cx : ℤ, cy ∈ iprim nrow i rank ∧ cx ∈ jprim ncol j rank ∧
      ¬(cy = (i : ℤ) ∧ cx = (j : ℤ)) ∧ v = cy * (ncol : ℤ) + cx := by
  obtain ⟨cy, cx, hmem, lc, hc, hvc⟩ := appendRetained_ok_mem h v hv
  obtain ⟨hcy, hcx⟩ := mem_candPairs.mp hmem
  obtain ⟨hne, heq⟩ := candStep_ok_mem hc hvc
  exact ⟨cy, cx, hcy, hcx, hne, heq⟩

/-! ## Theorems -/

/-- C6: the unconstrained builder's adjacency is symmetric: for cells
`a = (ia, ja)` and `b = (ib, jb)` of the grid, if `b`'s linear id appears in
`a`'s neighbor segment then `a`'s linear id appears in `b`'s. -/
theorem c6_adjacency_symmetric (ncol nrow rank : ℕ) (ia ja ib jb : ℕ)
    (hia : ia < nrow) (hja : ja < ncol) (_hib : ib < nrow) (hjb : jb < ncol)
    (h : ((ib : ℤ) * (ncol : ℤ) + (jb : ℤ)) ∈ cellAdj ncol nrow rank ia ja) :
    ((ia : ℤ) * (ncol : ℤ) + (ja : ℤ)) ∈ cellAdj ncol nrow rank ib jb := by
  obtain ⟨cy, cx, hcy, hcx, hne, heq⟩ := mem_cellAdj.mp h
  obtain ⟨h0, h1, h2, h3⟩ := mem_iprim.mp hcy
  obtain ⟨h4, h5, h6, h7⟩ := mem_jprim.mp hcx
  obtain ⟨hyd, hxe⟩ :=
    linearId_inj h4 h5 (by positivity) (by exact_mod_cast hjb) heq.symm
  subst hyd
  subst hxe
  refine mem_cellAdj.mpr ⟨(ia : ℤ), (ja : ℤ), ?_, ?_, ?_, rfl⟩
  · exact mem_iprim.mpr ⟨by positivity, by exact_mod_cast hia, by omega,
      by omega⟩
  · exact mem_jprim.mpr ⟨by positivity, by exact_mod_cast hja, by omega,
      by omega⟩
  · intro ⟨hy, hx⟩
    exact hne ⟨hy.symm, hx.symm⟩

/-- Witness for C6 on the 3×3 grid at rank 1: cell 0 appears in the center
cell's segment, hence the center cell 4 appears in cell 0's segment. -/
theorem c6_adjacency_symmetric_witness :
    ((1 : ℤ) * (3 : ℤ) + (1 : ℤ)) ∈ cellAdj 3 3 1 0 0 :=
  c6_adjacency_symmetric 3 3 1 1 1 0 0 (by decide) (by decide) (by decide)
    (by decide) (by decide)

/-- C7: neither builder produces a self-loop: cell `(i, j)`'s segment never
contains its own linear id — in the unconstrained builder's per-cell
adjacency, and in the masked builder's per-cell retained list (whose
translation to compacted indices, when it succeeds, preserves the referent
cell). -/
theorem c7_no_self_loops (ncol nrow rank : ℕ) (i j : ℕ)
    (mask : List (List ℕ)) (lst : List ℤ) (hj : j < ncol)
    (h : ctryCellScan mask ncol nrow rank i j = .ok lst) :
    ((i : ℤ) * (ncol : ℤ) + (j : ℤ)) ∉ cellAdj ncol nrow rank i j ∧
      ((i : ℤ) * (ncol : ℤ) + (j : ℤ)) ∉ lst := by
  constructor
  · intro hmem
    obtain ⟨cy, cx, hcy, hcx, hne, heq⟩ := mem_cellAdj.mp hmem
    obtain ⟨h4, h5, _, _⟩ := mem_jprim.mp hcx
    obtain ⟨hyd, hxe⟩ :=
      linearId_inj h4 h5 (by positivity) (by exact_mod_cast hj) heq.symm
    exact hne ⟨hyd, hxe⟩
  · intro hmem
    obtain ⟨cy, cx, _, hcx, hne, heq⟩ := ctryCellScan_ok_mem h hmem
    obtain ⟨h4, h5, _, _⟩ := mem_jprim.mp hcx
    obtain ⟨hyd, hxe⟩ :=
      linearId_inj h4 h5 (by positivity) (by exact_mod_cast hj) heq.symm
    exact hne ⟨hyd, hxe⟩

lemma around_one : around 1 = [-1, 0, 1] := by decide

/-- `Jprim` is the same clipped window as `Iprim`, with the column bound. -/
lemma jprim_eq_iprim (ncol j rank : ℕ) : jprim ncol j rank = iprim ncol j rank :=
  rfl

/-- At rank 1 the clipped window has 3 entries for an interior coordinate
and 2 at either boundary (for a grid extent of at least 2). -/
lemma iprim_length_rank1 {nrow i : ℕ} (h2 : 2 ≤ nrow) (hi : i < nrow) :
    (iprim nrow i 1).length = if 0 < i ∧ i < nrow - 1 then 3 else 2 := by
  simp only [iprim, around_one, List.map_cons, List.map_nil,
    List.filter_cons, List.filter_nil, decide_eq_true_eq]
  split_ifs <;> simp_all <;> omega

lemma cells_length (nrow ncol : ℕ) : (cells nrow ncol).length = nrow * ncol := by
  induction nrow with
  | zero => simp [cells]
  | succ n ih =>
    have hs : cells (n + 1) ncol = cells n ncol ++
        (List.range ncol).map (fun j => (n, j)) := by
      rw [cells, List.range_succ, List.flatMap_append, List.flatMap_cons,
        List.flatMap_nil, List.append_nil]
      rfl
    rw [hs, List.length_append, ih, List.length_map, List.length_range]
    have := Nat.succ_mul n ncol
    linarith

/-- Position `i * ncol + j` of the row-major cell list is cell `(i, j)`. -/
lemma cells_get {nrow ncol i j : ℕ} (hi : i < nrow) (hj : j < ncol) :
    (cells nrow ncol)[i * ncol + j]? = some (i, j) := by
  induction nrow with
  | zero => omega
  | succ n ih =>
    have hs : cells (n + 1) ncol = cells n ncol ++
        (List.range ncol).map (fun j => (n, j)) := by
      rw [cells, List.range_succ, List.flatMap_append, List.flatMap_cons,
        List.flatMap_nil, List.append_nil]
      rfl
    rw [hs]
    by_cases hin : i < n
    · rw [List.getElem?_append_left]
      · exact ih hin
      · rw [cells_length]
        have h1 : i * ncol + ncol ≤ n * ncol := by
          have := Nat.mul_le_mul_right ncol (by omega : i + 1 ≤ n)
          have := Nat.succ_mul i ncol
          linarith
        omega
    · have hieq : i = n := by omega
      subst hieq
      rw [List.getElem?_append_right (by rw [cells_length]; omega)]
      rw [cells_length]
      have hidx : i * ncol + j - i * ncol = j := by omega
      rw [hidx, List.getElem?_map, List.getElem?_range hj]
      rfl

/-- C5: for `rank = 1` on a grid with `ncol, nrow ≥ 2`, the neighbor count
of a cell is 8 when it is interior, 3 when it is a corner, and 5 when it is
a non-corner edge cell. -/
theorem c5_rank1_counts (ncol nrow : ℕ) (h2c : 2 ≤ ncol) (h2r : 2 ≤ nrow)
    (i j : ℕ) (hi : i < nrow) (hj : j < ncol) :
    (cellneighGrid ncol nrow 1).1[i * ncol + j]? =
      some (if 0 < i ∧ i < nrow - 1 ∧ 0 < j ∧ j < ncol - 1 then 8
        else if (i = 0 ∨ i = nrow - 1) ∧ (j = 0 ∨ j = ncol - 1) then 3
        else 5) := by
  show ((cells nrow ncol).map
      (fun p => cellCount ncol nrow 1 p.1 p.2))[i * ncol + j]? = _
  rw [List.getElem?_map, cells_get hi hj, Option.map_some']
  congr 1
  rw [cellCount, jprim_eq_iprim, iprim_length_rank1 h2r hi,
    iprim_length_rank1 h2c hj]
  by_cases hP : 0 < i ∧ i < nrow - 1 <;> by_cases hQ : 0 < j ∧ j < ncol - 1
  · rw [if_pos hP, if_pos hQ, if_pos (by omega)]
    norm_num
  · rw [if_pos hP, if_neg hQ, if_neg (by omega), if_neg (by omega)]
    norm_num
  · rw [if_neg hP, if_pos hQ, if_neg (by omega), if_neg (by omega)]
    norm_num
  · rw [if_neg hP, if_neg hQ, if_neg (by omega), if_pos (by omega)]
    norm_num

/-- Witness for C5 on the 3×3 grid: the center cell has count 8, a corner
3, an edge cell 5. -/
theorem c5_rank1_counts_witness :
    (cellneighGrid 3 3 1).1[(4 : ℕ)]? = some 8 := by
  have h := c5_rank1_counts 3 3 (by norm_num) (by norm_num) 1 1
    (by norm_num) (by norm_num)
  norm_num at h
  simpa using h

/-- Witness for C7 at the center cell of the 3×3 grid with an all-ones
mask. -/
theorem c7_no_self_loops_witness :
    ((1 : ℤ) * (3 : ℤ) + (1 : ℤ)) ∉ cellAdj 3 3 1 1 1 ∧
      ((1 : ℤ) * (3 : ℤ) + (1 : ℤ)) ∉
        ([0, 1, 2, 3, 5, 6, 7, 8] : List ℤ) :=
  c7_no_self_loops 3 3 1 1 1 [[1, 1, 1], [1, 1, 1], [1, 1, 1]]
    [0, 1, 2, 3, 5, 6, 7, 8] (by decide) (by rfl)

/-- C1: on the 2×2 all-ones mask, `included_cells` does have length `k = 4`,
but the builder never returns an adjacency of compacted indices: translating
the (nonempty) global-id list calls `.index` on the numpy array `cell_in`,
which raises `AttributeError`, so the call crashes instead of producing the
claimed `[0, k)`-valued adjacency. -/
theorem c1_compaction_crashes_on_nonempty_adjacency :
    (cell_in [[1, 1], [1, 1]] 2).length = 4 ∧
      ctryBuild [[1, 1], [1, 1]] 2 2 1 = .error "AttributeError" := by
  constructor <;> rfl

/-- C2: the masked builder's inner candidate check reads `mask[cx, cy]`,
transposed.  On the 1×2 grid with mask `[[1, 1]]` at rank 1, the candidate
for cell `(0, 0)` is `(cy, cx) = (0, 1)`: the row-major access the claim
prescribes, `mask[0, 1]`, is in bounds and equals 1 (the candidate should be
retained), but the code's transposed access `mask[1, 0]` is out of bounds
and the call aborts with `IndexError`. -/
theorem c2_mask_access_transposed :
    ctryBuild [[1, 1]] 2 1 1 = .error "IndexError" ∧
      maskGet [[1, 1]] 0 1 = some 1 ∧ maskGet [[1, 1]] 1 0 = none := by
  refine ⟨?_, ?_, ?_⟩ <;> rfl

/-- A grid with zero rows yields empty outputs. -/
lemma cellneighGrid_nrow_zero (ncol rank : ℕ) :
    cellneighGrid ncol 0 rank = ([], []) := rfl

/-- With a negative cell size and a well-formed region, `cellneigh` returns
normally with empty outputs: the ceiling of the negative row quotient is
non-positive, so the Python `range` over rows is empty. -/
lemma cellneigh_neg_csize (Xmin Xmax Ymin Ymax csize : ℚ) (rank : ℕ)
    (hc : csize < 0) (hy : Ymin < Ymax) :
    cellneigh none (some (Xmin, Xmax, Ymin, Ymax)) csize rank =
      .ok ([], []) := by
  have hcsm : csize * 1000 < 0 := mul_neg_of_neg_of_pos hc (by norm_num)
  have hne : ¬(csize * 1000 = 0) := ne_of_lt hcsm
  have hq : (Ymax - Ymin) / (csize * 1000) < 0 :=
    div_neg_of_pos_of_neg (by linarith) hcsm
  have hnat : (⌈(Ymax - Ymin) / (csize * 1000)⌉).toNat = 0 :=
    Int.toNat_of_nonpos (Int.ceil_le.mpr (by push_cast; linarith))
  simp only [cellneigh, resolveRegion]
  rw [if_neg hne, hnat]
  rfl

/-- C3 counterexample: with the explicit region `(0, 25, 0, 25)` and the
non-positive cell size `csize = -10`, `cellneigh` does not stop with a
configuration error: it silently returns (empty) grid output. -/
theorem c3_negative_csize_not_rejected :
    cellneigh none (some (0, 25, 0, 25)) (-10) 1 = .ok ([], []) :=
  cellneigh_neg_csize 0 25 0 25 (-10) 1 (by norm_num) (by norm_num)

/-- C3 amended: the grid partitioner performs no cell-size validation.
A zero cell size stops execution only with an unhandled
`ZeroDivisionError` (not a reported configuration error); a negative cell
size (on a region with `north > south`) is silently accepted and yields
empty grid output instead of stopping. -/
theorem c3_amended_no_csize_validation (Xmin Xmax Ymin Ymax csize : ℚ)
    (rank : ℕ) (hc : csize < 0) (hy : Ymin < Ymax) :
    cellneigh none (some (Xmin, Xmax, Ymin, Ymax)) csize rank =
        .ok ([], []) ∧
      cellneigh none (some (Xmin, Xmax, Ymin, Ymax)) 0 rank =
        .error "ZeroDivisionError" := by
  refine ⟨cellneigh_neg_csize _ _ _ _ _ _ hc hy, ?_⟩
  simp [cellneigh, resolveRegion]

/-- Witness for the amended C3 at a concrete input. -/
theorem c3_amended_no_csize_validation_witness :
    cellneigh none (some (0, 25, 0, 25)) (-10) 1 = .ok ([], []) ∧
      cellneigh none (some (0, 25, 0, 25)) 0 1 =
        .error "ZeroDivisionError" :=
  c3_amended_no_csize_validation 0 25 0 25 (-10) 1 (by norm_num) (by norm_num)

/-- C8: with neither a raster nor an explicit region, both builders stop
with the reported fatal error (`sys.exit(1)` after printing the message);
no default region is substituted and no output is produced. -/
theorem c8_missing_region_is_fatal (csize : ℚ) (rank : ℕ)
    (mask : List (List ℕ)) :
    cellneigh none none csize rank =
        .error "exit 1: raster or region must be specified" ∧
      cellneigh_ctry none none mask csize rank =
        .error "exit 1: raster or region must be specified" := by
  constructor <;> rfl

/-- C10: when both a raster and an explicit region are supplied, region
resolution succeeds with the raster-derived bounds, and both builders
behave exactly as if no explicit region had been passed (the region
argument is silently ignored; the raster takes precedence). -/
theorem c10_raster_takes_precedence (rast : RasterMeta)
    (reg : ℚ × ℚ × ℚ × ℚ) (mask : List (List ℕ)) (csize : ℚ) (rank : ℕ) :
    resolveRegion (some rast) (some reg) = .ok (rasterRegion rast) ∧
      cellneigh (some rast) (some reg) csize rank =
        cellneigh (some rast) none csize rank ∧
      cellneigh_ctry (some rast) (some reg) mask csize rank =
        cellneigh_ctry (some rast) none mask csize rank := by
  refine ⟨rfl, rfl, rfl⟩

lemma snd_mem_of_mem_enum {α : Type} {l : List α} {p : ℕ × α}
    (h : p ∈ l.enum) : p.2 ∈ l := by
  have := List.mem_map_of_mem Prod.snd h
  rwa [List.enum_map_snd] at this

/-- With no 1-valued mask entry, `np.where(mask == 1)` is empty. -/
lemma cell_in_eq_nil {mask : List (List ℕ)} {ncol : ℕ}
    (hzero : ∀ row ∈ mask, ∀ v ∈ row, v ≠ 1) : cell_in mask ncol = [] := by
  rw [cell_in, List.flatMap_eq_nil_iff]
  intro p hp
  have hrow : (p.2.enum.filter (fun q => q.2 == 1)) = [] := by
    rw [List.filter_eq_nil_iff]
    intro q hq
    simp only [beq_iff_eq]
    exact hzero p.2 (snd_mem_of_mem_enum hp) q.2 (snd_mem_of_mem_enum hq)
  rw [hrow, List.map_nil]

/-- Cells whose row-major mask entry is not 1 are skipped wholesale by the
masked main loop. -/
lemma ctryScanAux_skip {mask : List (List ℕ)} {ncol nrow rank : ℕ} :
    ∀ {ps : List (ℕ × ℕ)},
      (∀ p ∈ ps, ∃ v, maskGet mask (p.1 : ℤ) (p.2 : ℤ) = some v ∧ v ≠ 1) →
        ctryScanAux mask ncol nrow rank ps = .ok ([], []) := by
  intro ps
  induction ps with
  | nil => intro _; rfl
  | cons p rest ih =>
    intro h
    obtain ⟨v, hv, hne⟩ := h p (List.mem_cons_self p rest)
    obtain ⟨i, j⟩ := p
    show ctryScanAux mask ncol nrow rank ((i, j) :: rest) = .ok ([], [])
    unfold ctryScanAux
    rw [hv]
    dsimp only
    rw [if_neg hne]
    exact ih (fun q hq => h q (List.mem_cons_of_mem _ hq))

/-- C9: when the mask (of the expected `nrow × ncol` shape) contains no
1-valued cell, the masked builder succeeds and returns three empty
sequences: empty neighbor counts, empty adjacency and empty included-cell
list. -/
theorem c9_empty_mask_yields_empty_outputs (ncol nrow rank : ℕ)
    (mask : List (List ℕ)) (hlen : mask.length = nrow)
    (hrows : ∀ row ∈ mask, row.length = ncol)
    (hzero : ∀ row ∈ mask, ∀ v ∈ row, v ≠ 1) :
    ctryBuild mask ncol nrow rank = .ok ([], [], []) := by
  have hscan : ctryScan mask ncol nrow rank = .ok ([], []) := by
    apply ctryScanAux_skip
    intro p hp
    obtain ⟨hpi, hpj⟩ := mem_cells.mp hp
    have hi : p.1 < mask.length := by omega
    have hj : p.2 < mask[p.1].length := by
      rw [hrows _ (List.getElem_mem hi)]
      exact hpj
    refine ⟨mask[p.1][p.2], ?_, ?_⟩
    · simp only [maskGet, if_pos
        (And.intro (Int.natCast_nonneg p.1) (Int.natCast_nonneg p.2))]
      simp only [Int.toNat_natCast]
      rw [List.getElem?_eq_getElem hi]
      simp only [Option.some_bind]
      exact List.getElem?_eq_getElem hj
    · exact hzero _ (List.getElem_mem hi) _ (List.getElem_mem hj)
  unfold ctryBuild
  rw [hscan]
  dsimp only
  rw [cell_in_eq_nil hzero]
  rfl

/-- Witness for C9 on a 2×2 all-zero mask. -/
theorem c9_empty_mask_yields_empty_outputs_witness :
    ctryBuild [[0, 0], [0, 0]] 2 2 1 = .ok ([], [], []) :=
  c9_empty_mask_yields_empty_outputs 2 2 1 [[0, 0], [0, 0]] (by rfl)
    (by decide) (by decide)

end Cellneigh
